import Mathlib

/-!
Verification of the unused-environment-variable detector (`warnUnused`)
and its two exported default ignore lists.

Embedding choices:
* A JavaScript object with string keys and string values is modelled as an
  association list `List (String × String)`; `Object.keys` is `List.map Prod.fst`.
* `Set`-membership (`Set.has`) is `List.contains` on the underlying key list.
* JavaScript `key.startsWith(p)` is `jsStartsWith`, prefix testing on the
  character data of the strings.
* The `warn` callback is modelled by returning, next to the result list, the
  list of messages the function passes to the callback (empty or a singleton).
* An absent `options` argument, or an absent field of it, is modelled with
  `Option`: `none` stands for the omitted field and `Option.getD` applies the
  same defaults the destructuring in the source applies.
-/

/-- The exported `DEFAULT_IGNORE_PREFIXES` constant of `src/index.ts`. -/
def DEFAULT_IGNORE_PREFIXES : List String :=
  ["npm_", "NODE_", "LC_", "SSH_", "XDG_", "DBUS_"]

/-- The exported `DEFAULT_IGNORE_VARIABLES` constant of `src/index.ts`. -/
def DEFAULT_IGNORE_VARIABLES : List String :=
  ["SHELL", "TERM", "USER", "HOME", "PATH", "PWD", "LANG", "DISPLAY",
   "COLORTERM", "EDITOR", "VISUAL", "PAGER", "LESS", "HOSTNAME", "LOGNAME",
   "MAIL", "OLDPWD", "SHLVL", "_"]

/-- The `WarnUnusedOptions` interface: each field is optional.  The `warn`
callback itself is not carried as data; the messages handed to it are part of
the result of `warnUnused` below. -/
structure WarnUnusedOptions where
  ignorePrefixes : Option (List String)
  ignoreVariables : Option (List String)
deriving DecidableEq

/-- The empty options object `{}`, the default value of the `options`
argument in the source. -/
def emptyOptions : WarnUnusedOptions := ⟨none, none⟩

/-- JavaScript `key.startsWith(p)`: `p` is a prefix of `key`. -/
def jsStartsWith (key p : String) : Bool :=
  p.data.isPrefixOf key.data

/-- The filter inside `warnUnused` (`src/index.ts` lines 63-68): keep a key
unless it is a defined key, an ignored name, or starts with an ignored
prefix; the three checks are an early-return chain in the source. -/
def unusedKeysCalc (definedKeys processEnvKeys ignorePrefixes ignoreVariables :
    List String) : List String :=
  processEnvKeys.filter fun key =>
    if definedKeys.contains key then false
    else if ignoreVariables.contains key then false
    else if ignorePrefixes.any (fun p => jsStartsWith key p) then false
    else true

/-- `warnUnused` from `src/index.ts`: takes the cleaned env object and the
`process.env` snapshot (both as association lists) plus the options, and
returns the unused-key list together with the list of messages passed to the
`warn` callback. -/
def warnUnused (cleanedEnv processEnv : List (String × String))
    (options : WarnUnusedOptions) : List String × List String :=
  let ignorePrefixes := options.ignorePrefixes.getD DEFAULT_IGNORE_PREFIXES
  let ignoreVariables := options.ignoreVariables.getD DEFAULT_IGNORE_VARIABLES
  let definedKeys := cleanedEnv.map Prod.fst
  let processEnvKeys := processEnv.map Prod.fst
  let unusedKeys := unusedKeysCalc definedKeys processEnvKeys ignorePrefixes ignoreVariables
  let warnCalls :=
    if unusedKeys.length > 0 then
      ["[envalid-unused] Found " ++ toString unusedKeys.length ++
        " unused environment variable(s): " ++ String.intercalate ", " unusedKeys]
    else []
  (unusedKeys, warnCalls)

/-- Whether a string ends with the underscore character. -/
def lastIsUnderscore (s : String) : Bool :=
  s.data.getLast? == some '_'

/-- The defined-key check of the filter as a standalone predicate. -/
def definedCheck (definedKeys : List String) : String → Bool :=
  fun key => definedKeys.contains key

/-- The ignored-name check of the filter as a standalone predicate. -/
def ignoreNameCheck (ignoreVariables : List String) : String → Bool :=
  fun key => ignoreVariables.contains key

/-- The ignored-prefix check of the filter as a standalone predicate. -/
def ignorePrefixCheck (ignorePrefixes : List String) : String → Bool :=
  fun key => ignorePrefixes.any (fun p => jsStartsWith key p)

/-- A variant of the unused-key filter that runs an arbitrary sequence of
exclusionary checks as an early-return chain (`List.any` short-circuits in
exactly the order of the list). -/
def unusedKeysChecks (checks : List (String → Bool))
    (processEnvKeys : List String) : List String :=
  processEnvKeys.filter fun key => !(checks.any fun c => c key)

/-! ## Bridging lemmas -/

/-- The early-return chain of the filter equals the conjunction of the three
negated checks. -/
theorem unusedPred_eq (definedKeys ignorePrefixes ignoreVariables : List String)
    (key : String) :
    (if definedKeys.contains key then false
     else if ignoreVariables.contains key then false
     else if ignorePrefixes.any (fun p => jsStartsWith key p) then false
     else true) =
    (!(definedKeys.contains key) && !(ignoreVariables.contains key) &&
      !(ignorePrefixes.any (fun p => jsStartsWith key p))) := by
  cases definedKeys.contains key <;>
    cases ignoreVariables.contains key <;>
      cases ignorePrefixes.any (fun p => jsStartsWith key p) <;> rfl

/-- `jsStartsWith` decides the prefix relation on character data. -/
theorem jsStartsWith_iff (key p : String) :
    jsStartsWith key p = true ↔ p.data <+: key.data := by
  simp [jsStartsWith]

/-- Membership in `unusedKeysCalc`: exactly the snapshot keys that survive
the three exclusions. -/
theorem mem_unusedKeysCalc (definedKeys processEnvKeys ignorePrefixes
    ignoreVariables : List String) (k : String) :
    k ∈ unusedKeysCalc definedKeys processEnvKeys ignorePrefixes ignoreVariables ↔
      k ∈ processEnvKeys ∧ k ∉ definedKeys ∧ k ∉ ignoreVariables ∧
        ∀ p ∈ ignorePrefixes, ¬ p.data <+: k.data := by
  simp only [unusedKeysCalc, List.mem_filter, unusedPred_eq, Bool.and_eq_true,
    Bool.not_eq_true', Bool.not_eq_true]
  constructor
  · rintro ⟨hk, ⟨⟨hd, hv⟩, hp⟩⟩
    refine ⟨hk, ?_, ?_, ?_⟩
    · simpa [List.elem_eq_mem, List.contains] using hd
    · simpa [List.elem_eq_mem, List.contains] using hv
    · intro p hp'
      rw [← jsStartsWith_iff]
      intro hps
      exact absurd (List.any_eq_true.mpr ⟨p, hp', hps⟩) (by simp [hp])
  · rintro ⟨hk, hd, hv, hp⟩
    refine ⟨hk, ⟨⟨?_, ?_⟩, ?_⟩⟩
    · simpa [List.elem_eq_mem, List.contains] using hd
    · simpa [List.elem_eq_mem, List.contains] using hv
    · rw [Bool.eq_false_iff]
      intro hany
      obtain ⟨p, hp', hps⟩ := List.any_eq_true.mp hany
      exact hp p hp' ((jsStartsWith_iff k p).mp hps)

/-- `unusedKeysCalc` is a sublist of the snapshot keys. -/
theorem unusedKeysCalc_sublist (definedKeys processEnvKeys ignorePrefixes
    ignoreVariables : List String) :
    (unusedKeysCalc definedKeys processEnvKeys ignorePrefixes ignoreVariables).Sublist
      processEnvKeys :=
  List.filter_sublist processEnvKeys

/-- The result component of `warnUnused` unfolded to the filter. -/
theorem warnUnused_fst (cleanedEnv processEnv : List (String × String))
    (options : WarnUnusedOptions) :
    (warnUnused cleanedEnv processEnv options).fst =
      unusedKeysCalc (cleanedEnv.map Prod.fst) (processEnv.map Prod.fst)
        (options.ignorePrefixes.getD DEFAULT_IGNORE_PREFIXES)
        (options.ignoreVariables.getD DEFAULT_IGNORE_VARIABLES) := rfl

/-! ## Claim theorems -/

/-- Claim C4: with both ignore lists defaulted (the empty options object),
the snapshot {FOO, SHELL, CUSTOM_VAR} against defined keys {FOO} yields
["CUSTOM_VAR"] (SHELL is excluded by the default name list), and the
snapshot {FOO, npm_config_test, CUSTOM_VAR} against defined keys {FOO}
yields ["CUSTOM_VAR"] (the npm_ prefix is excluded by the default prefix
list). -/
theorem warnUnused_default_examples :
    (warnUnused [("FOO", "bar")]
      [("FOO", "bar"), ("SHELL", "/bin/bash"), ("CUSTOM_VAR", "x")]
      emptyOptions).fst = ["CUSTOM_VAR"] ∧
    (warnUnused [("FOO", "bar")]
      [("FOO", "bar"), ("npm_config_test", "1"), ("CUSTOM_VAR", "x")]
      emptyOptions).fst = ["CUSTOM_VAR"] := by
  constructor <;> rfl

/-- Claim C8: every entry of `DEFAULT_IGNORE_PREFIXES` ends with the
underscore character, and no entry of `DEFAULT_IGNORE_VARIABLES` ends with
an underscore except the single-underscore entry "_". -/
theorem default_lists_underscore_shape :
    DEFAULT_IGNORE_PREFIXES.all lastIsUnderscore = true ∧
    DEFAULT_IGNORE_VARIABLES.all (fun v => !(lastIsUnderscore v) || v == "_") = true := by
  constructor <;> rfl

/-- Claim C1: the result of `warnUnused` contains exactly the snapshot keys
that are absent from the defined-key set, not equal to any ignored name, and
not extending any ignored prefix; it preserves the snapshot's enumeration
order (it is a sublist of the snapshot keys) and has no duplicates whenever
the snapshot keys are unique. -/
theorem warnUnused_characterization (cleanedEnv processEnv : List (String × String))
    (ips ivs : List String) :
    (∀ k, k ∈ (warnUnused cleanedEnv processEnv ⟨some ips, some ivs⟩).fst ↔
        k ∈ processEnv.map Prod.fst ∧ k ∉ cleanedEnv.map Prod.fst ∧ k ∉ ivs ∧
          ∀ p ∈ ips, ¬ p.data <+: k.data) ∧
    ((warnUnused cleanedEnv processEnv ⟨some ips, some ivs⟩).fst).Sublist
      (processEnv.map Prod.fst) ∧
    ((processEnv.map Prod.fst).Nodup →
      ((warnUnused cleanedEnv processEnv ⟨some ips, some ivs⟩).fst).Nodup) := by
  rw [warnUnused_fst]
  exact ⟨fun k => mem_unusedKeysCalc _ _ _ _ k, unusedKeysCalc_sublist _ _ _ _,
    fun h => (unusedKeysCalc_sublist _ _ _ _).nodup h⟩

/-- Claim C1, witness: for the snapshot {FOO, BAR} and defined keys {FOO}
with empty ignore lists, BAR is reported and the result has no
duplicates. -/
theorem warnUnused_characterization_witness :
    "BAR" ∈ (warnUnused [("FOO", "1")] [("FOO", "1"), ("BAR", "2")]
      ⟨some [], some []⟩).fst ∧
    ((warnUnused [("FOO", "1")] [("FOO", "1"), ("BAR", "2")]
      ⟨some [], some []⟩).fst).Nodup := by
  have h := warnUnused_characterization [("FOO", "1")] [("FOO", "1"), ("BAR", "2")] [] []
  exact ⟨(h.1 "BAR").mpr (by simp), h.2.2 (by simp)⟩

/-- The message component of `warnUnused` in terms of its result
component. -/
theorem warnUnused_snd (cleanedEnv processEnv : List (String × String))
    (options : WarnUnusedOptions) :
    (warnUnused cleanedEnv processEnv options).snd =
      if (warnUnused cleanedEnv processEnv options).fst.length > 0 then
        ["[envalid-unused] Found " ++
          toString (warnUnused cleanedEnv processEnv options).fst.length ++
          " unused environment variable(s): " ++
          String.intercalate ", " (warnUnused cleanedEnv processEnv options).fst]
      else [] := rfl

/-- Claim C2: the warn callback is invoked exactly once iff the result is
non-empty, and every emitted message is exactly the advertised summary text
built from the result's decimal length and its elements joined by ", " in
result order; when the result is empty nothing is emitted. -/
theorem warnUnused_report (cleanedEnv processEnv : List (String × String))
    (options : WarnUnusedOptions) :
    (warnUnused cleanedEnv processEnv options).snd.length =
      (if (warnUnused cleanedEnv processEnv options).fst = [] then 0 else 1) ∧
    ∀ m ∈ (warnUnused cleanedEnv processEnv options).snd,
      m = "[envalid-unused] Found " ++
        toString (warnUnused cleanedEnv processEnv options).fst.length ++
        " unused environment variable(s): " ++
        String.intercalate ", " (warnUnused cleanedEnv processEnv options).fst := by
  refine ⟨?_, ?_⟩
  · rw [warnUnused_snd]
    rcases h : (warnUnused cleanedEnv processEnv options).fst with _ | ⟨a, l⟩ <;>
      simp [h]
  · intro m hm
    rw [warnUnused_snd] at hm
    split at hm
    · simpa using hm
    · exact absurd hm (by simp)

/-- Claim C2, witness: with the snapshot {FOO} and no defined keys the
single emitted message is the exact summary text. -/
theorem warnUnused_report_witness :
    "[envalid-unused] Found 1 unused environment variable(s): FOO" ∈
      (warnUnused [] [("FOO", "1")] ⟨some [], some []⟩).snd ∧
    "[envalid-unused] Found 1 unused environment variable(s): FOO" =
      "[envalid-unused] Found " ++
        toString (warnUnused [] [("FOO", "1")] ⟨some [], some []⟩).fst.length ++
        " unused environment variable(s): " ++
        String.intercalate ", "
          (warnUnused [] [("FOO", "1")] ⟨some [], some []⟩).fst := by
  refine ⟨by decide, ?_⟩
  exact (warnUnused_report [] [("FOO", "1")] ⟨some [], some []⟩).2 _ (by decide)

/-- Claim C3, counterexample: with the ignore fields absent the ignore lists
default to the built-in non-empty lists, not to empty structures: on the
snapshot {SHELL} with no defined keys the defaulted call reports nothing,
while explicit empty ignore lists report ["SHELL"]. -/
theorem warnUnused_absent_fields_not_empty :
    warnUnused [] [("SHELL", "/bin/sh")] emptyOptions ≠
      warnUnused [] [("SHELL", "/bin/sh")] ⟨some [], some []⟩ := by
  decide

/-- Claim C3, amended: when the options argument or any of its fields is
absent the function does not fail (it is total and always returns a value);
the absent options argument defaults to the empty options object, and absent
fields default to the built-in default lists rather than to empty ones. -/
theorem warnUnused_absent_fields_default_builtin
    (cleanedEnv processEnv : List (String × String)) :
    warnUnused cleanedEnv processEnv emptyOptions =
      warnUnused cleanedEnv processEnv
        ⟨some DEFAULT_IGNORE_PREFIXES, some DEFAULT_IGNORE_VARIABLES⟩ := rfl

/-- `contains` over a list extended by one element on the right. -/
theorem contains_append_single (l : List String) (n k : String) :
    (l ++ [n]).contains k = (l.contains k || k == n) := by
  rw [Bool.eq_iff_iff]
  simp [List.contains, List.elem_eq_mem, List.mem_append]

/-- Claim C5: the order of the three exclusion checks does not affect the
result: any variant of the detector that runs the checks as an early-return
chain in any permuted order returns the same list as `warnUnused`. -/
theorem warnUnused_check_order (cleanedEnv processEnv : List (String × String))
    (ips ivs : List String) (checks : List (String → Bool))
    (h : checks.Perm [definedCheck (cleanedEnv.map Prod.fst), ignoreNameCheck ivs,
      ignorePrefixCheck ips]) :
    unusedKeysChecks checks (processEnv.map Prod.fst) =
      (warnUnused cleanedEnv processEnv ⟨some ips, some ivs⟩).fst := by
  have hfst : (warnUnused cleanedEnv processEnv ⟨some ips, some ivs⟩).fst =
      unusedKeysCalc (cleanedEnv.map Prod.fst) (processEnv.map Prod.fst) ips ivs := rfl
  rw [hfst]
  unfold unusedKeysChecks unusedKeysCalc
  apply List.filter_congr
  intro k _
  have hany : checks.any (fun c => c k) =
      List.any [definedCheck (cleanedEnv.map Prod.fst), ignoreNameCheck ivs,
        ignorePrefixCheck ips] (fun c => c k) := by
    rw [Bool.eq_iff_iff]
    simp only [List.any_eq_true]
    constructor
    · rintro ⟨c, hc, hck⟩
      exact ⟨c, h.mem_iff.mp hc, hck⟩
    · rintro ⟨c, hc, hck⟩
      exact ⟨c, h.mem_iff.mpr hc, hck⟩
  rw [hany]
  simp only [List.any_cons, List.any_nil, definedCheck, ignoreNameCheck,
    ignorePrefixCheck]
  cases (cleanedEnv.map Prod.fst).contains k <;> cases ivs.contains k <;>
    cases ips.any (fun p => jsStartsWith k p) <;> rfl

/-- Claim C5, witness: running the ignored-name check before the defined-key
check on a concrete input is a permutation of the original order and yields
the original result. -/
theorem warnUnused_check_order_witness :
    ([ignoreNameCheck ["IGN"], definedCheck ([("FOO", "1")].map Prod.fst),
        ignorePrefixCheck ["npm_"]].Perm
      [definedCheck ([("FOO", "1")].map Prod.fst), ignoreNameCheck ["IGN"],
        ignorePrefixCheck ["npm_"]]) ∧
    unusedKeysChecks
      [ignoreNameCheck ["IGN"], definedCheck ([("FOO", "1")].map Prod.fst),
        ignorePrefixCheck ["npm_"]]
      ([("FOO", "1"), ("BAR", "2")].map Prod.fst) =
      (warnUnused [("FOO", "1")] [("FOO", "1"), ("BAR", "2")]
        ⟨some ["npm_"], some ["IGN"]⟩).fst := by
  have hperm := List.Perm.swap (definedCheck ([("FOO", "1")].map Prod.fst))
    (ignoreNameCheck ["IGN"]) [ignorePrefixCheck ["npm_"]]
  exact ⟨hperm, warnUnused_check_order [("FOO", "1")] [("FOO", "1"), ("BAR", "2")]
    ["npm_"] ["IGN"] _ hperm⟩

/-- Claim C6: extending the defined keys by a name that occurs in the result
removes that name from the result and nothing else: the new result is the old
result with the occurrences of the name filtered out, and when the snapshot
keys are unique this is exactly the old result with the single element
erased. -/
theorem warnUnused_add_defined_removes (cleanedEnv processEnv : List (String × String))
    (ips ivs : List String) (n v : String)
    (_h : n ∈ (warnUnused cleanedEnv processEnv ⟨some ips, some ivs⟩).fst) :
    (warnUnused (cleanedEnv ++ [(n, v)]) processEnv ⟨some ips, some ivs⟩).fst =
      ((warnUnused cleanedEnv processEnv ⟨some ips, some ivs⟩).fst).filter
        (fun k => k != n) ∧
    ((processEnv.map Prod.fst).Nodup →
      (warnUnused (cleanedEnv ++ [(n, v)]) processEnv ⟨some ips, some ivs⟩).fst =
        ((warnUnused cleanedEnv processEnv ⟨some ips, some ivs⟩).fst).erase n) := by
  have hmap : (cleanedEnv ++ [(n, v)]).map Prod.fst =
      cleanedEnv.map Prod.fst ++ [n] := by simp
  have hmain : (warnUnused (cleanedEnv ++ [(n, v)]) processEnv
      ⟨some ips, some ivs⟩).fst =
      ((warnUnused cleanedEnv processEnv ⟨some ips, some ivs⟩).fst).filter
        (fun k => k != n) := by
    rw [warnUnused_fst, warnUnused_fst, hmap]
    unfold unusedKeysCalc
    rw [List.filter_filter]
    apply List.filter_congr
    intro k _
    rw [contains_append_single]
    cases hd : (cleanedEnv.map Prod.fst).contains k <;> cases hn : k == n <;>
      cases hv : ivs.contains k <;>
        cases hp : ips.any (fun p => jsStartsWith k p) <;> simp [bne, hn]
  refine ⟨hmain, fun hnd => ?_⟩
  have hnodup : ((warnUnused cleanedEnv processEnv ⟨some ips, some ivs⟩).fst).Nodup := by
    rw [warnUnused_fst]
    exact (unusedKeysCalc_sublist _ _ _ _).nodup hnd
  rw [List.Nodup.erase_eq_filter hnodup]
  exact hmain

/-- Claim C6, witness: BAR is unused for defined keys {FOO}; defining BAR as
well removes exactly it from the result. -/
theorem warnUnused_add_defined_removes_witness :
    "BAR" ∈ (warnUnused [("FOO", "1")] [("FOO", "1"), ("BAR", "2")]
      ⟨some [], some []⟩).fst ∧
    (warnUnused [("FOO", "1"), ("BAR", "0")] [("FOO", "1"), ("BAR", "2")]
      ⟨some [], some []⟩).fst =
      ((warnUnused [("FOO", "1")] [("FOO", "1"), ("BAR", "2")]
        ⟨some [], some []⟩).fst).erase "BAR" := by
  refine ⟨by decide, ?_⟩
  exact (warnUnused_add_defined_removes [("FOO", "1")] [("FOO", "1"), ("BAR", "2")]
    [] [] "BAR" "0" (by decide)).2 (by decide)

/-- Claim C7: appending a name to the ignored names removes from the result
exactly the occurrences of that name, and appending a prefix to the ignored
prefixes removes exactly the names starting with it; the surviving names
keep their relative order (both new results are filters of the old one). -/
theorem warnUnused_extend_ignores (cleanedEnv processEnv : List (String × String))
    (ips ivs : List String) (n p : String) :
    (warnUnused cleanedEnv processEnv ⟨some ips, some (ivs ++ [n])⟩).fst =
      ((warnUnused cleanedEnv processEnv ⟨some ips, some ivs⟩).fst).filter
        (fun k => k != n) ∧
    (warnUnused cleanedEnv processEnv ⟨some (ips ++ [p]), some ivs⟩).fst =
      ((warnUnused cleanedEnv processEnv ⟨some ips, some ivs⟩).fst).filter
        (fun k => !(jsStartsWith k p)) := by
  have e0 : (warnUnused cleanedEnv processEnv ⟨some ips, some ivs⟩).fst =
      unusedKeysCalc (cleanedEnv.map Prod.fst) (processEnv.map Prod.fst) ips ivs := rfl
  have e1 : (warnUnused cleanedEnv processEnv ⟨some ips, some (ivs ++ [n])⟩).fst =
      unusedKeysCalc (cleanedEnv.map Prod.fst) (processEnv.map Prod.fst) ips
        (ivs ++ [n]) := rfl
  have e2 : (warnUnused cleanedEnv processEnv ⟨some (ips ++ [p]), some ivs⟩).fst =
      unusedKeysCalc (cleanedEnv.map Prod.fst) (processEnv.map Prod.fst) (ips ++ [p])
        ivs := rfl
  constructor
  · rw [e1, e0]
    unfold unusedKeysCalc
    rw [List.filter_filter]
    apply List.filter_congr
    intro k _
    rw [contains_append_single]
    cases hd : (cleanedEnv.map Prod.fst).contains k <;> cases hn : k == n <;>
      cases hv : ivs.contains k <;>
        cases hp : ips.any (fun q => jsStartsWith k q) <;> simp [bne, hn]
  · rw [e2, e0]
    unfold unusedKeysCalc
    rw [List.filter_filter]
    apply List.filter_congr
    intro k _
    rw [List.any_append]
    cases hd : (cleanedEnv.map Prod.fst).contains k <;>
      cases hv : ivs.contains k <;>
        cases hp : ips.any (fun q => jsStartsWith k q) <;>
          cases hq : jsStartsWith k p <;> simp [hq]

/-- Claim C9: the result depends only on the key set of the cleaned env
object, not on its values or on key multiplicity or order: two cleaned env
objects whose key lists have the same members yield identical results. -/
theorem warnUnused_keys_only (cleaned1 cleaned2 processEnv : List (String × String))
    (options : WarnUnusedOptions)
    (h : ∀ k, k ∈ cleaned1.map Prod.fst ↔ k ∈ cleaned2.map Prod.fst) :
    warnUnused cleaned1 processEnv options = warnUnused cleaned2 processEnv options := by
  have hfst : (warnUnused cleaned1 processEnv options).fst =
      (warnUnused cleaned2 processEnv options).fst := by
    rw [warnUnused_fst, warnUnused_fst]
    unfold unusedKeysCalc
    apply List.filter_congr
    intro k _
    have hc : (cleaned1.map Prod.fst).contains k =
        (cleaned2.map Prod.fst).contains k := by
      rw [Bool.eq_iff_iff]
      simpa [List.contains, List.elem_eq_mem] using h k
    rw [hc]
  have h1 := warnUnused_snd cleaned1 processEnv options
  have h2 := warnUnused_snd cleaned2 processEnv options
  refine Prod.ext hfst ?_
  rw [h1, h2, hfst]

/-- Claim C9, witness: a cleaned env with the key FOO twice and different
values gives the same output as one with FOO once. -/
theorem warnUnused_keys_only_witness :
    (∀ k, k ∈ ([("FOO", "1"), ("FOO", "2")] : List (String × String)).map Prod.fst ↔
      k ∈ ([("FOO", "x")] : List (String × String)).map Prod.fst) ∧
    warnUnused [("FOO", "1"), ("FOO", "2")] [("FOO", "y"), ("BAR", "2")]
      emptyOptions =
      warnUnused [("FOO", "x")] [("FOO", "y"), ("BAR", "2")] emptyOptions := by
  have hk : ∀ k, k ∈ ([("FOO", "1"), ("FOO", "2")] : List (String × String)).map
      Prod.fst ↔ k ∈ ([("FOO", "x")] : List (String × String)).map Prod.fst := by
    intro k
    simp
  exact ⟨hk, warnUnused_keys_only _ _ _ _ hk⟩

/-- Every string starts with the empty string. -/
theorem jsStartsWith_empty (k : String) : jsStartsWith k "" = true := by
  simp [jsStartsWith]

/-- Claim C10: when the ignored prefixes contain the empty string, every key
is excluded: the result is empty and no message is emitted. -/
theorem warnUnused_empty_string_ignore (cleanedEnv processEnv : List (String × String))
    (ips ivs : List String) (h : "" ∈ ips) :
    warnUnused cleanedEnv processEnv ⟨some ips, some ivs⟩ = ([], []) := by
  have hfst : (warnUnused cleanedEnv processEnv ⟨some ips, some ivs⟩).fst = [] := by
    rw [warnUnused_fst]
    unfold unusedKeysCalc
    rw [List.filter_eq_nil_iff]
    intro k _
    have hany : ips.any (fun p => jsStartsWith k p) = true :=
      List.any_eq_true.mpr ⟨"", h, jsStartsWith_empty k⟩
    simp [unusedPred_eq, hany]
  have hsnd := warnUnused_snd cleanedEnv processEnv ⟨some ips, some ivs⟩
  rw [hfst] at hsnd
  simp at hsnd
  exact Prod.ext hfst hsnd

/-- Claim C10, witness: with the single ignored prefix "" the key A is
suppressed and nothing is reported. -/
theorem warnUnused_empty_string_ignore_witness :
    "" ∈ ([""] : List String) ∧
    warnUnused [] [("A", "1")] ⟨some [""], some []⟩ = ([], []) := by
  refine ⟨by decide, ?_⟩
  exact warnUnused_empty_string_ignore [] [("A", "1")] [""] [] (by decide)
